import Mathlib

/-!
# EOF container parser, validator and stepper: a shallow embedding

This file embeds the EOF (EVM Object Format) prototype from
`src/prototype/eof/src/lib.rs` into Lean: the container parser
(`parse_eof_container`), the structural/bytecode validator
(`validate_eof_container`) and the single-instruction control-flow stepper
(`simulate_eof_step`), together with theorems settling the specification
claims about them.

Modelling conventions:
* A Rust byte slice `&[u8]` is a `List Nat` whose entries are the byte
  values.  The parser's `cursor` into the slice is modelled by passing the
  remaining suffix `bytecode[cursor..]` through each parsing phase; the
  Rust bounds check `bytecode.len() < cursor + k` is exactly
  `remaining.length < k` on that suffix.
* Machine integers are `Nat` (`u8`, `u16`, `usize`) or `Int` (`i16`,
  `isize`), with the `as usize` cast of an `isize` made explicit as a
  reduction modulo `2 ^ 64`.
* Fallible Rust functions returning `Result<T, EOFError>` become
  `Except EOFError T`.  The validator indexes `container.sections[idx]`,
  which can panic in Rust; its embedding returns `Option` with `none`
  modelling the index panic.
* `Vec<u8>` used as a stack (`SimulatedStack`) is a `List Nat` with the
  top of the stack at the head; `push` is `cons` (guarded by the 1024
  capacity check) and `pop` takes the head.
-/

/-! ## Constants (`lib.rs` lines 8-24) -/

def EOF_MAGIC : Nat := 0xEF00
def EOF_VERSION : Nat := 0x01

def JUMP : Nat := 0x56
def JUMPI : Nat := 0x57
def PC : Nat := 0x58
def INVALID : Nat := 0xFE
def SELFDESTRUCT : Nat := 0xFF
def PUSH1 : Nat := 0x60
def PUSH32 : Nat := 0x7F

def RJUMP : Nat := 0xE0
def RJUMPI : Nat := 0xE1

/-- `usize::MAX` on a 64-bit target, used by `checked_add`. -/
def USIZE_MAX : Nat := 2 ^ 64 - 1

/-! ## Data model (`lib.rs` lines 27-86) -/

inductive SectionKind where
  | Type
  | Code
  | Container
  | Data
deriving DecidableEq

structure SectionHeader where
  kind : SectionKind
  size : Nat -- u16 on the wire: always < 65536 when produced by the parser
deriving DecidableEq

structure EOFHeader where
  version : Nat -- u8
  section_headers : List SectionHeader
deriving DecidableEq

structure EOFContainer where
  header : EOFHeader
  sections : List (List Nat)
deriving DecidableEq

inductive EOFError where
  | InvalidMagic
  | InvalidVersion (v : Nat)
  | MissingTerminator
  | UnexpectedEndOfInput
  | InvalidSectionKind (b : Nat)
  | SectionSizeMismatch
  | TooManySections
  | DuplicateSection (k : SectionKind)
  | MalformedSectionHeader
  | UnsupportedSectionKind (b : Nat)
  | InvalidOpcode (op : Nat)
  | TruncatedPushData
  | JumpDestForbidden (op : Nat)
  | StackUnderflow
  | StackOverflow
deriving DecidableEq

/-- `impl TryFrom<u8> for SectionKind` (`lib.rs` lines 37-48). -/
def sectionKindFromByte (b : Nat) : Except EOFError SectionKind :=
  if b = 0x01 then .ok SectionKind.Type
  else if b = 0x02 then .ok SectionKind.Code
  else if b = 0x03 then .ok SectionKind.Container
  else if b = 0x04 then .ok SectionKind.Data
  else .error (.InvalidSectionKind b)

/-- The on-wire discriminant of a section kind (`SectionKind as u8`). -/
def kindByte : SectionKind → Nat
  | SectionKind.Type => 0x01
  | SectionKind.Code => 0x02
  | SectionKind.Container => 0x03
  | SectionKind.Data => 0x04

/-! ## Container parser (`parse_eof_container`, `lib.rs` lines 114-217)

Each phase takes the remaining input suffix and returns the suffix it did
not consume. -/

/-- Step 1 of `parse_eof_container`: the 2-byte big-endian magic check. -/
def readMagic (bytes : List Nat) : Except EOFError (List Nat) :=
  match bytes with
  | b0 :: b1 :: rest =>
      if b0 * 256 + b1 ≠ EOF_MAGIC then .error .InvalidMagic else .ok rest
  | _ => .error .UnexpectedEndOfInput

/-- Step 2 of `parse_eof_container`: the version byte check. -/
def readVersion (bytes : List Nat) : Except EOFError (Nat × List Nat) :=
  match bytes with
  | v :: rest => if v ≠ EOF_VERSION then .error (.InvalidVersion v) else .ok (v, rest)
  | [] => .error .UnexpectedEndOfInput

/-- Step 3 of `parse_eof_container`: the section-header loop
(`lib.rs` lines 145-184).  Reads one kind byte per iteration, stops at the
`0x00` terminator, otherwise reads a 2-byte big-endian size, updates the
per-kind running counts (rejecting a second `Type` or `Data` section), and
appends the header.  Returns the headers, the final `Type` count and the
unconsumed suffix. -/
def parseSectionHeaders : List Nat → List SectionHeader → Nat → Nat → Nat →
    Except EOFError (List SectionHeader × Nat × List Nat)
  | [], _, _, _, _ => .error .UnexpectedEndOfInput
  | kindB :: rest, acc, tc, cc, dc =>
    if kindB = 0 then .ok (acc, tc, rest)
    else
      match sectionKindFromByte kindB with
      | .error e => .error e
      | .ok kind =>
        match rest, kind with
        | hi :: lo :: rest2, SectionKind.Type =>
          if tc + 1 > 1 then .error (.DuplicateSection SectionKind.Type)
          else parseSectionHeaders rest2 (acc ++ [⟨SectionKind.Type, hi * 256 + lo⟩]) (tc + 1) cc dc
        | hi :: lo :: rest2, SectionKind.Code =>
          parseSectionHeaders rest2 (acc ++ [⟨SectionKind.Code, hi * 256 + lo⟩]) tc (cc + 1) dc
        | hi :: lo :: rest2, SectionKind.Data =>
          if dc + 1 > 1 then .error (.DuplicateSection SectionKind.Data)
          else parseSectionHeaders rest2 (acc ++ [⟨SectionKind.Data, hi * 256 + lo⟩]) tc cc (dc + 1)
        | hi :: lo :: rest2, SectionKind.Container =>
          parseSectionHeaders rest2 (acc ++ [⟨SectionKind.Container, hi * 256 + lo⟩]) tc cc dc
        | _, _ => .error .UnexpectedEndOfInput

/-- `usize::checked_add` on a 64-bit target. -/
def checkedAdd (a b : Nat) : Option Nat :=
  if a + b ≤ USIZE_MAX then some (a + b) else none

/-- Step 4 of `parse_eof_container`: content extraction (`lib.rs` lines
194-205).  For each header in order, accumulates the declared total size
with `checked_add`, bounds-checks the remaining input and takes exactly
`size` bytes as the section content. -/
def extractSections : List SectionHeader → List Nat → Nat →
    Except EOFError (List (List Nat) × List Nat)
  | [], bytes, _ => .ok ([], bytes)
  | h :: rest, bytes, total =>
    match checkedAdd total h.size with
    | none => .error .SectionSizeMismatch
    | some total2 =>
      if bytes.length < h.size then .error .UnexpectedEndOfInput
      else
        match extractSections rest (bytes.drop h.size) total2 with
        | .error e => .error e
        | .ok (secs, rest2) => .ok (bytes.take h.size :: secs, rest2)

/-- `parse_eof_container` (`lib.rs` lines 114-217). -/
def parse_eof_container (bytes : List Nat) : Except EOFError EOFContainer :=
  match readMagic bytes with
  | .error e => .error e
  | .ok r1 =>
    match readVersion r1 with
    | .error e => .error e
    | .ok (version, r2) =>
      match parseSectionHeaders r2 [] 0 0 0 with
      | .error e => .error e
      | .ok (headers, typeCount, r3) =>
        if headers = [] then .error .MissingTerminator
        else if typeCount = 0 then .error .MissingTerminator
        else
          match extractSections headers r3 0 with
          | .error e => .error e
          | .ok (sections, r4) =>
            if r4 ≠ [] then .error .SectionSizeMismatch
            else .ok ⟨⟨version, headers⟩, sections⟩

/-! ## Structural & bytecode validator (`validate_eof_container`,
`lib.rs` lines 220-313) -/

/-- The first pass of `validate_eof_container` (`lib.rs` lines 226-262):
section ordering and emptiness, one header at a time, tracking the running
`idx`, `code_section_count`, `data_section_found` flag and the
`section_kind_order` list.  Returns the final code-section count. -/
def sectionOrderLoop : List SectionHeader → Nat → Nat → Bool → List SectionKind →
    Except EOFError Nat
  | [], _, codeCount, _, _ => .ok codeCount
  | h :: rest, idx, codeCount, dataFound, order =>
    match h.kind with
    | SectionKind.Type =>
      if idx ≠ 0 then .error .MalformedSectionHeader
      else if h.size = 0 then .error .SectionSizeMismatch
      else sectionOrderLoop rest (idx + 1) codeCount dataFound (order ++ [SectionKind.Type])
    | SectionKind.Code =>
      if order.getLast? ≠ some SectionKind.Type ∧ order.getLast? ≠ some SectionKind.Code then
        .error .MalformedSectionHeader
      else if h.size = 0 then .error .SectionSizeMismatch
      else sectionOrderLoop rest (idx + 1) (codeCount + 1) dataFound (order ++ [SectionKind.Code])
    | SectionKind.Data =>
      if SectionKind.Container ∈ order then .error .MalformedSectionHeader
      else sectionOrderLoop rest (idx + 1) codeCount true (order ++ [SectionKind.Data])
    | SectionKind.Container =>
      if dataFound then .error .MalformedSectionHeader
      else sectionOrderLoop rest (idx + 1) codeCount dataFound (order ++ [SectionKind.Container])

/-- The per-instruction scan of one code section (`lib.rs` lines 272-295):
`INVALID`/`SELFDESTRUCT` are `InvalidOpcode`, `JUMP`/`JUMPI`/`PC` are
`JumpDestForbidden`, a push opcode skips its immediate bytes after a
truncation check, anything else is accepted. -/
def scanCode (code : List Nat) (i : Nat) : Except EOFError Unit :=
  if _h : code.length ≤ i then .ok ()
  else
    let opcode := code.getD i 0
    if opcode = INVALID then .error (.InvalidOpcode opcode)
    else if opcode = SELFDESTRUCT then .error (.InvalidOpcode opcode)
    else if opcode = JUMP ∨ opcode = JUMPI ∨ opcode = PC then
      .error (.JumpDestForbidden opcode)
    else if PUSH1 ≤ opcode ∧ opcode ≤ PUSH32 then
      if code.length < i + 1 + (opcode - PUSH1 + 1) then .error .TruncatedPushData
      else scanCode code (i + (opcode - PUSH1 + 1) + 1)
    else scanCode code (i + 1)
termination_by code.length - i

/-- The second pass of `validate_eof_container` (`lib.rs` lines 269-297):
for each `Code` header at position `idx`, fetch `container.sections[idx]`
and scan it.  The Rust indexing panics when `idx` is out of range of
`sections`; the embedding returns `none` for that panic. -/
def scanCodeSections : List SectionHeader → List (List Nat) → Nat →
    Option (Except EOFError Unit)
  | [], _, _ => some (.ok ())
  | h :: rest, sections, idx =>
    if h.kind = SectionKind.Code then
      match sections.get? idx with
      | none => none
      | some code =>
        match scanCode code 0 with
        | .error e => some (.error e)
        | .ok _ => scanCodeSections rest sections (idx + 1)
    else scanCodeSections rest sections (idx + 1)

/-- `validate_eof_container` (`lib.rs` lines 220-313).  `none` models the
panic of the `container.sections[idx]` indexing; `some r` is the Rust
`Result`. -/
def validate_eof_container (c : EOFContainer) : Option (Except EOFError Unit) :=
  match sectionOrderLoop c.header.section_headers 0 0 false [] with
  | .error e => some (.error e)
  | .ok codeCount =>
    if codeCount = 0 then some (.error .MissingTerminator)
    else
      match scanCodeSections c.header.section_headers c.sections 0 with
      | none => none
      | some (.error e) => some (.error e)
      | some (.ok _) =>
        match c.header.section_headers.find? (fun h => h.kind == SectionKind.Type) with
        | none => some (.error .MissingTerminator)
        | some t =>
          if t.size % 4 ≠ 0 then some (.error .MalformedSectionHeader)
          else if ¬ (t.size / 4 = codeCount) then some (.error .MalformedSectionHeader)
          else some (.ok ())

/-! ## Control-flow stepper (`SimulatedStack` and `simulate_eof_step`,
`lib.rs` lines 316-399) -/

/-- `SimulatedStack::push` (`lib.rs` lines 323-330): capacity 1024. -/
def stackPush (stack : List Nat) (val : Nat) : Except EOFError (List Nat) :=
  if 1024 ≤ stack.length then .error .StackOverflow else .ok (val :: stack)

/-- `SimulatedStack::pop` (`lib.rs` lines 332-334). -/
def stackPop (stack : List Nat) : Except EOFError (Nat × List Nat) :=
  match stack with
  | [] => .error .StackUnderflow
  | v :: rest => .ok (v, rest)

/-- `i16::from_be_bytes([hi, lo])`: two's-complement decode of a signed
16-bit big-endian value. -/
def i16FromBeBytes (hi lo : Nat) : Int :=
  let v := hi * 256 + lo
  if v < 32768 then (v : Int) else (v : Int) - 65536

/-- The `as usize` cast of an `isize` value on a 64-bit target:
two's-complement wrap modulo `2 ^ 64`. -/
def usizeOfIsize (x : Int) : Nat := (x % (2 ^ 64 : Int)).toNat

/-- `simulate_eof_step` (`lib.rs` lines 344-399).  Rust mutates `pc` and
`stack` in place; the embedding returns the result together with the final
values of both, so that partial mutation before an error is preserved
(e.g. the first of the two pops of opcode `0x01`). -/
def simulate_eof_step (code : List Nat) (pc : Nat) (stack : List Nat) :
    Except EOFError Unit × Nat × List Nat :=
  if code.length ≤ pc then (.error .UnexpectedEndOfInput, pc, stack)
  else
    let opcode := code.getD pc 0
    if PUSH1 ≤ opcode ∧ opcode ≤ PUSH32 then
      let pushSize := opcode - PUSH1 + 1
      if code.length < pc + 1 + pushSize then (.error .TruncatedPushData, pc, stack)
      else
        match stackPush stack opcode with
        | .error e => (.error e, pc, stack)
        | .ok s1 => (.ok (), pc + (pushSize + 1), s1)
    else if opcode = 0x01 then
      match stackPop stack with
      | .error e => (.error e, pc, stack)
      | .ok (_, s1) =>
        match stackPop s1 with
        | .error e => (.error e, pc, s1)
        | .ok (_, s2) =>
          match stackPush s2 0 with
          | .error e => (.error e, pc, s2)
          | .ok s3 => (.ok (), pc + 1, s3)
    else if opcode = RJUMP then
      if code.length < pc + 3 then (.error .UnexpectedEndOfInput, pc, stack)
      else
        let offset := i16FromBeBytes (code.getD (pc + 1) 0) (code.getD (pc + 2) 0)
        (.ok (), usizeOfIsize ((pc : Int) + offset), stack)
    else if opcode = RJUMPI then
      if code.length < pc + 3 then (.error .UnexpectedEndOfInput, pc, stack)
      else
        match stackPop stack with
        | .error e => (.error e, pc, stack)
        | .ok (condition, s1) =>
          let offset := i16FromBeBytes (code.getD (pc + 1) 0) (code.getD (pc + 2) 0)
          if condition ≠ 0 then (.ok (), usizeOfIsize ((pc : Int) + offset), s1)
          else (.ok (), pc + 3, s1)
    else (.ok (), pc + 1, stack)

/-! ## Serialization

Modelled from the spec: the source repository has no serializer under
`src/`; §6 of the specification fixes the wire format (big-endian magic
`0xEF00`, the version byte, one 3-byte header record per section — kind
discriminant then 2-byte big-endian size — a single `0x00` terminator,
then the section contents concatenated in declared order).  `serialize`
follows those words; the round-trip claim compares it against the parser
embedded from the source. -/

/-- §6: one 3-byte record per declared section header — the kind
discriminant byte followed by the size in big-endian. -/
def serializeHeaders : List SectionHeader → List Nat
  | [] => []
  | h :: rest => kindByte h.kind :: h.size / 256 :: h.size % 256 :: serializeHeaders rest

/-- §6: the section contents, concatenated in declared order. -/
def serializeSections : List (List Nat) → List Nat
  | [] => []
  | s :: rest => s ++ serializeSections rest

/-- §6: magic `0xEF00`, version byte, header records, `0x00` terminator,
then the concatenated contents. -/
def serialize (c : EOFContainer) : List Nat :=
  0xEF :: 0x00 :: c.header.version ::
    (serializeHeaders c.header.section_headers ++ [0x00] ++
      serializeSections c.sections)

/-- Decidable equality for `Except` results, so that concrete parser and
validator outcomes can be settled by `decide`. -/
instance {ε α : Type} [DecidableEq ε] [DecidableEq α] : DecidableEq (Except ε α) := fun x y =>
  match x, y with
  | .ok a, .ok b =>
    if h : a = b then .isTrue (by rw [h]) else .isFalse (fun hh => h (by injection hh))
  | .error a, .error b =>
    if h : a = b then .isTrue (by rw [h]) else .isFalse (fun hh => h (by injection hh))
  | .ok _, .error _ => .isFalse (fun hh => Except.noConfusion hh)
  | .error _, .ok _ => .isFalse (fun hh => Except.noConfusion hh)

/-! ## C1 — relative-jump target arithmetic

The claim (and the repository's own tests) require the new instruction
pointer of `RJUMP`/taken `RJUMPI` to be `pc + 3 + offset`, relative to the
end of the 3-byte instruction.  The code computes
`*pc = (*pc as isize + offset as isize) as usize`, i.e. `pc + offset`:
stepping `RJUMP +2` at cursor 0 lands on 2, not 5. -/

/-- C1: the code violates the claim.  Stepping the unconditional relative
jump `RJUMP 0x0002` at cursor 0 of `[RJUMP, 0x00, 0x02, 0xFF, 0x01]`
succeeds but leaves the cursor at `pc + offset = 2`, not at
`pc + 3 + offset = 5` as the claim (and the repository's tests
`test_simulate_rjump_out_of_bounds` and `test_simulate_rjumpi_true`)
require. -/
theorem c1_rjump_target_eval :
    simulate_eof_step [0xE0, 0x00, 0x02, 0xFF, 0x01] 0 [] = (.ok (), 2, []) := rfl

/-! ## C2 — legal section-kind sequence

`validate_eof_container`'s `Data` arm errors when a `Container` section
was already seen (`section_kind_order.contains(&Container)`), although its
own comment says it rejects the opposite order ("Data must not be followed
by Container").  The canonical sequence `Type, Code, Container, Data` is
therefore rejected. -/

/-- C2: the code violates the claim.  A container whose section kinds are
exactly `Type, Code, Container, Data` — with nonzero `Type`/`Code` sizes
and `Type` size `4 = 4 × (number of Code sections)` — is rejected with
`MalformedSectionHeader` at the `Data` header, while the claim (and the
code's own comment on that check) say this ordering is legal. -/
theorem c2_ordering_eval :
    validate_eof_container
      ⟨⟨1, [⟨SectionKind.Type, 4⟩, ⟨SectionKind.Code, 1⟩,
            ⟨SectionKind.Container, 1⟩, ⟨SectionKind.Data, 1⟩]⟩,
        [[0, 0, 0, 0], [0x01], [0xAB], [0xCD]]⟩ =
      some (.error .MalformedSectionHeader) := rfl

/-! ## C7 — conditional jump on an empty stack -/

/-- C7: stepping `RJUMPI` (both immediate bytes present) against an empty
simulated stack fails with `StackUnderflow` and leaves both the cursor and
the stack unchanged. -/
theorem c7_rjumpi_underflow (code : List Nat) (pc : Nat)
    (hop : code.getD pc 0 = RJUMPI) (hlen : pc + 3 ≤ code.length) :
    simulate_eof_step code pc [] = (.error .StackUnderflow, pc, []) := by
  have h1 : ¬ code.length ≤ pc := by omega
  have h2 : ¬ code.length < pc + 3 := by omega
  have hop' : code[pc]?.getD 0 = 225 := by simpa [List.getD, RJUMPI] using hop
  simp [simulate_eof_step, h1, h2, hop', RJUMPI, RJUMP, PUSH1, PUSH32, stackPop, List.getD]

/-- Witness for C7 at the concrete code `[RJUMPI, 0x00, 0x02]`, cursor 0. -/
theorem c7_rjumpi_underflow_witness :
    simulate_eof_step [0xE1, 0x00, 0x02] 0 [] = (.error .StackUnderflow, 0, []) :=
  c7_rjumpi_underflow [0xE1, 0x00, 0x02] 0 (by rfl) (by norm_num)

/-! ## C10 — negative relative-jump offsets wrap modulo `2 ^ 64` -/

/-- C10: for an `RJUMP` (or taken `RJUMPI`) whose decoded signed 16-bit
offset is negative with magnitude exceeding the cursor, the step still
returns `Ok` and the new cursor is the two's-complement wrap of
`pc + offset` modulo `2 ^ 64` — a value within `32768` of `2 ^ 64`, hence
hugely out of range of any real code section — rather than an error. -/
theorem c10_negative_offset_wrap (code : List Nat) (pc : Nat) (stack : List Nat) (off : Int)
    (hoff : off = i16FromBeBytes (code.getD (pc + 1) 0) (code.getD (pc + 2) 0))
    (hneg : off < 0) (hmag : (pc : Int) + off < 0) (hlen : pc + 3 ≤ code.length) :
    (code.getD pc 0 = RJUMP →
      simulate_eof_step code pc stack =
        (.ok (), (((pc : Int) + off) % (2 ^ 64 : Int)).toNat, stack)) ∧
    (∀ cond rest, code.getD pc 0 = RJUMPI → stack = cond :: rest → cond ≠ 0 →
      simulate_eof_step code pc stack =
        (.ok (), (((pc : Int) + off) % (2 ^ 64 : Int)).toNat, rest)) ∧
    2 ^ 64 - 32768 ≤ (((pc : Int) + off) % (2 ^ 64 : Int)).toNat := by
  have h1 : ¬ code.length ≤ pc := by omega
  have h2 : ¬ code.length < pc + 3 := by omega
  have hlow : -32768 ≤ off := by
    rw [hoff]
    simp only [i16FromBeBytes]
    split <;> omega
  have hoff' : i16FromBeBytes (code[pc + 1]?.getD 0) (code[pc + 2]?.getD 0) = off := by
    simpa [List.getD] using hoff.symm
  refine ⟨?_, ?_, ?_⟩
  · intro hop
    have hop' : code[pc]?.getD 0 = 224 := by simpa [List.getD, RJUMP] using hop
    simp [simulate_eof_step, h1, h2, hop', RJUMP, RJUMPI, PUSH1, PUSH32,
      usizeOfIsize, List.getD, hoff']
  · intro cond rest hop hstack hcond
    have hop' : code[pc]?.getD 0 = 225 := by simpa [List.getD, RJUMPI] using hop
    subst hstack
    simp [simulate_eof_step, h1, h2, hop', RJUMP, RJUMPI, PUSH1, PUSH32,
      usizeOfIsize, List.getD, stackPop, hcond, hoff']
  · omega

/-- Witness for C10: `RJUMP` with offset `0xFFFE = -2` at cursor 0 wraps
the cursor to `2 ^ 64 - 2`. -/
theorem c10_negative_offset_wrap_witness :
    simulate_eof_step [0xE0, 0xFF, 0xFE, 0x00] 0 [] =
      (.ok (), 18446744073709551614, []) := by
  have h := (c10_negative_offset_wrap [0xE0, 0xFF, 0xFE, 0x00] 0 [] (-2)
      (by norm_num [i16FromBeBytes, List.getD]) (by norm_num) (by norm_num)
      (by norm_num)).1 (by rfl)
  have hv : ((((0 : Nat) : Int) + (-2 : Int)) % (2 ^ 64 : Int)).toNat =
      18446744073709551614 := by decide
  rw [h, hv]

/-! ## C3 — round-trip: counterexample and amended statement -/

/-- C3 counterexample: the container with no sections at all satisfies the
§3 length invariants (`sections.length = section_headers.length = 0`), yet
`parse (serialize c)` is `Err MissingTerminator`, not `Ok c` — the parser
rejects any container that declares zero sections or no `Type` section. -/
theorem c3_roundtrip_counterexample :
    (⟨⟨1, []⟩, []⟩ : EOFContainer).sections.length =
        (⟨⟨1, []⟩, []⟩ : EOFContainer).header.section_headers.length ∧
    parse_eof_container (serialize ⟨⟨1, []⟩, []⟩) = .error .MissingTerminator :=
  ⟨rfl, rfl⟩

/-! ## C5 — Type/Code consistency rule: counterexample and amended rule -/

/-- C5 counterexample: a container whose `Type` section size 3 is not a
multiple of 4 but which has no `Code` section is rejected with
`MissingTerminator` (the missing-code check fires first), not with
`MalformedSectionHeader` as the claim requires of every container. -/
theorem c5_type_size_counterexample :
    (3 : Nat) % 4 ≠ 0 ∧
    validate_eof_container ⟨⟨1, [⟨SectionKind.Type, 3⟩]⟩, [[0, 0, 0]]⟩ =
      some (.error .MissingTerminator) :=
  ⟨by decide, rfl⟩

/-- C5 (amended): for a container that passes the ordering/emptiness pass
with a nonzero code-section count `n` and whose code sections pass the
bytecode scan, with `t` the first `Type` header: if `t.size` is not a
multiple of 4 or `t.size / 4 ≠ n`, validation returns
`MalformedSectionHeader`; otherwise it returns `Ok` — the type-size rule
raises no error. -/
theorem c5_type_size_rule (c : EOFContainer) (n : Nat) (t : SectionHeader)
    (h1 : sectionOrderLoop c.header.section_headers 0 0 false [] = .ok n)
    (h2 : n ≠ 0)
    (h3 : scanCodeSections c.header.section_headers c.sections 0 = some (.ok ()))
    (h4 : c.header.section_headers.find? (fun h => h.kind == SectionKind.Type) = some t) :
    ((t.size % 4 ≠ 0 ∨ t.size / 4 ≠ n) →
      validate_eof_container c = some (.error .MalformedSectionHeader)) ∧
    (t.size % 4 = 0 → t.size / 4 = n → validate_eof_container c = some (.ok ())) := by
  constructor
  · intro hbad
    rcases hbad with hm | hq
    · simp [validate_eof_container, h1, h2, h3, h4, hm]
    · by_cases hm : t.size % 4 = 0
      · simp [validate_eof_container, h1, h2, h3, h4, hm, hq]
      · simp [validate_eof_container, h1, h2, h3, h4, hm]
  · intro hm hq
    simp [validate_eof_container, h1, h2, h3, h4, hm, hq]

/-- Witness for C5: `Type` size 8 with a single code section (`8 / 4 = 2 ≠ 1`)
is rejected with `MalformedSectionHeader`, as in the source's
`test_validate_code_section_count_mismatch`. -/
theorem c5_type_size_rule_witness :
    validate_eof_container ⟨⟨1, [⟨SectionKind.Type, 8⟩, ⟨SectionKind.Code, 1⟩]⟩,
      [[0, 0, 0, 0, 0, 0, 0, 0], [0x01]]⟩ = some (.error .MalformedSectionHeader) :=
  (c5_type_size_rule
      ⟨⟨1, [⟨SectionKind.Type, 8⟩, ⟨SectionKind.Code, 1⟩]⟩,
        [[0, 0, 0, 0, 0, 0, 0, 0], [0x01]]⟩ 1 ⟨SectionKind.Type, 8⟩
      (by rfl) (by decide)
      (by simp [scanCodeSections, scanCode.eq_def, PUSH1, PUSH32, INVALID,
        SELFDESTRUCT, JUMP, JUMPI, PC])
      (by rfl)).1 (by decide)

/-! ## C9 — the validator's section indexing -/

/-- When every header position that the code-scan pass will visit is in
range of `sections`, the pass never hits the out-of-bounds index panic. -/
theorem scanCodeSections_ne_none (hs : List SectionHeader) (sections : List (List Nat))
    (idx : Nat) (h : idx + hs.length ≤ sections.length) :
    scanCodeSections hs sections idx ≠ none := by
  induction hs generalizing idx with
  | nil => simp [scanCodeSections]
  | cons hd tl ih =>
    have hlen : idx < sections.length := by
      simp only [List.length_cons] at h
      omega
    have hnext : idx + 1 + tl.length ≤ sections.length := by
      simp only [List.length_cons] at h
      omega
    by_cases hk : hd.kind = SectionKind.Code
    · obtain ⟨code, hcode⟩ : ∃ code, sections[idx]? = some code := by
        rw [List.getElem?_eq_getElem hlen]
        exact ⟨_, rfl⟩
      rcases hscan : scanCode code 0 with e | u
      · simp [scanCodeSections, hk, hcode, hscan]
      · simp [scanCodeSections, hk, hcode, hscan]
        exact ih (idx + 1) hnext
    · simp [scanCodeSections, hk]
      exact ih (idx + 1) hnext

/-- C9 counterexample: a container with fewer sections than headers and an
out-of-range `Code` header (kinds `[Code]`, no sections) does not panic:
the ordering pass rejects it with `Err(MalformedSectionHeader)` before the
`container.sections[idx]` access is reached, so the claim's "for every
such container the access is out of bounds" fails. -/
theorem c9_indexing_counterexample :
    (⟨⟨1, [⟨SectionKind.Code, 1⟩]⟩, []⟩ : EOFContainer).sections.length <
        (⟨⟨1, [⟨SectionKind.Code, 1⟩]⟩, []⟩ : EOFContainer).header.section_headers.length ∧
    validate_eof_container ⟨⟨1, [⟨SectionKind.Code, 1⟩]⟩, []⟩ =
      some (.error .MalformedSectionHeader) :=
  ⟨by decide, rfl⟩

/-- C9 (amended): `validate_eof_container` indexes `sections` by the
position of each `Code` header, so a container with fewer sections than
headers *can* make that access panic when the first-pass checks let it
through (second conjunct), but not every such container panics — some are
rejected with an `Err` first; under the §3 precondition
`sections.length = section_headers.length` the access is always in bounds
and validation never panics (first conjunct). -/
theorem c9_indexing_totality :
    (∀ c : EOFContainer, c.sections.length = c.header.section_headers.length →
      validate_eof_container c ≠ none) ∧
    validate_eof_container ⟨⟨1, [⟨SectionKind.Type, 4⟩, ⟨SectionKind.Code, 1⟩]⟩,
      [[0, 0, 0, 0]]⟩ = none := by
  constructor
  · intro c hlen
    unfold validate_eof_container
    rcases horder : sectionOrderLoop c.header.section_headers 0 0 false [] with e | n
    · simp
    · by_cases hn : n = 0
      · simp [hn]
      · have hne := scanCodeSections_ne_none c.header.section_headers c.sections 0
          (by omega)
        rcases hsc : scanCodeSections c.header.section_headers c.sections 0 with _ | r
        · exact absurd hsc hne
        · rcases r with e | u
          · simp [hn, hsc]
          · rcases hf : c.header.section_headers.find? (fun h => h.kind == SectionKind.Type)
              with _ | t
            · simp [hn, hsc, hf]
            · by_cases hm : t.size % 4 = 0 <;> by_cases hq : t.size / 4 = n <;>
                simp [hn, hsc, hf, hm, hq]
  · rfl

/-- Witness for C9: a container with matching section and header counts —
the minimal valid one — never makes the validator panic. -/
theorem c9_indexing_totality_witness :
    validate_eof_container ⟨⟨1, [⟨SectionKind.Type, 4⟩, ⟨SectionKind.Code, 5⟩]⟩,
      [[0, 0, 0, 0], [0x60, 0x01, 0x60, 0x02, 0x01]]⟩ ≠ none :=
  c9_indexing_totality.1
    ⟨⟨1, [⟨SectionKind.Type, 4⟩, ⟨SectionKind.Code, 5⟩]⟩,
      [[0, 0, 0, 0], [0x60, 0x01, 0x60, 0x02, 0x01]]⟩ (by decide)

/-! ## C6 — the parse-time length invariant -/

/-- Content extraction returns one section per header, each of exactly the
declared size. -/
theorem extractSections_spec (hs : List SectionHeader) (bytes : List Nat) (t : Nat)
    (secs : List (List Nat)) (rest : List Nat)
    (h : extractSections hs bytes t = .ok (secs, rest)) :
    secs.length = hs.length ∧
    ∀ i, i < hs.length →
      (secs.getD i []).length = (hs.getD i ⟨SectionKind.Type, 0⟩).size := by
  induction hs generalizing bytes t secs with
  | nil =>
    simp only [extractSections, Except.ok.injEq, Prod.mk.injEq] at h
    obtain ⟨h1, _⟩ := h
    subst h1
    simp
  | cons hd tl ih =>
    rw [extractSections] at h
    split at h
    · cases h
    split at h
    · cases h
    next hlt =>
    split at h
    · cases h
    next secs2 rest2 hrec =>
    simp only [Except.ok.injEq, Prod.mk.injEq] at h
    obtain ⟨hsecs, hrest⟩ := h
    subst hsecs
    subst hrest
    obtain ⟨ihlen, ihidx⟩ := ih _ _ _ hrec
    refine ⟨by simp [ihlen], ?_⟩
    intro i hi
    cases i with
    | zero =>
      simp only [List.getD_cons_zero, List.length_take]
      omega
    | succ n =>
      simp only [List.getD_cons_succ]
      exact ihidx n (by simpa using hi)

/-- C6: every container produced by a successful parse satisfies the §3
invariant — as many sections as section headers, and the `i`-th section's
length equal to the `i`-th header's declared size.  (The validator takes
the container by shared reference and returns only `Result<(), _>`, so it
cannot mutate it; in this pure embedding `validate_eof_container` is a
function of the container value, and the invariant established here is
preserved by construction.) -/
theorem c6_parse_invariant (bytes : List Nat) (c : EOFContainer)
    (h : parse_eof_container bytes = .ok c) :
    c.sections.length = c.header.section_headers.length ∧
    ∀ i, i < c.header.section_headers.length →
      (c.sections.getD i []).length =
        (c.header.section_headers.getD i ⟨SectionKind.Type, 0⟩).size := by
  unfold parse_eof_container at h
  split at h
  · cases h
  split at h
  · cases h
  split at h
  · cases h
  split at h
  · cases h
  split at h
  · cases h
  split at h
  · cases h
  next sections r4 hex =>
  split at h
  · cases h
  obtain rfl : (⟨⟨_, _⟩, sections⟩ : EOFContainer) = c := by injection h
  exact extractSections_spec _ _ _ _ _ hex

/-- Witness for C6 at the minimal valid container's byte encoding. -/
theorem c6_parse_invariant_witness :
    (⟨⟨1, [⟨SectionKind.Type, 4⟩, ⟨SectionKind.Code, 5⟩]⟩,
        [[0, 0, 0, 0], [0x60, 0x01, 0x60, 0x02, 0x01]]⟩ : EOFContainer).sections.length =
      (⟨⟨1, [⟨SectionKind.Type, 4⟩, ⟨SectionKind.Code, 5⟩]⟩,
        [[0, 0, 0, 0], [0x60, 0x01, 0x60, 0x02, 0x01]]⟩ : EOFContainer).header.section_headers.length :=
  (c6_parse_invariant
    [0xEF, 0x00, 0x01, 0x01, 0x00, 0x04, 0x02, 0x00, 0x05, 0x00,
      0, 0, 0, 0, 0x60, 0x01, 0x60, 0x02, 0x01]
    (⟨⟨1, [⟨SectionKind.Type, 4⟩, ⟨SectionKind.Code, 5⟩]⟩,
      [[0, 0, 0, 0], [0x60, 0x01, 0x60, 0x02, 0x01]]⟩ : EOFContainer) (by rfl)).1

/-! ## C8 — duplicate-section detection during header parsing -/

/-- Every `DuplicateSection` error raised by the header loop names `Type`
or `Data`: the loop never rejects repeated `Code` or `Container` headers. -/
theorem parseSectionHeaders_dup_kinds (bytes : List Nat) (acc : List SectionHeader)
    (tc cc dc : Nat) (k : SectionKind)
    (h : parseSectionHeaders bytes acc tc cc dc = .error (.DuplicateSection k)) :
    k = SectionKind.Type ∨ k = SectionKind.Data := by
  induction bytes, acc, tc, cc, dc using parseSectionHeaders.induct <;>
    (rw [parseSectionHeaders] at h; try simp_all)
  all_goals (unfold sectionKindFromByte at *; split_ifs at * <;> simp_all)

/-- The magic check only raises `InvalidMagic` or `UnexpectedEndOfInput`. -/
theorem readMagic_no_dup (bytes : List Nat) (k : SectionKind)
    (h : readMagic bytes = .error (.DuplicateSection k)) : False := by
  unfold readMagic at h
  split at h
  · split_ifs at h <;> simp_all
  · simp_all

/-- The version check only raises `InvalidVersion` or
`UnexpectedEndOfInput`. -/
theorem readVersion_no_dup (bytes : List Nat) (k : SectionKind)
    (h : readVersion bytes = .error (.DuplicateSection k)) : False := by
  unfold readVersion at h
  split at h
  · split_ifs at h <;> simp_all
  · simp_all

/-- Content extraction never raises a `DuplicateSection` error. -/
theorem extractSections_no_dup (hs : List SectionHeader) (bytes : List Nat) (t : Nat)
    (k : SectionKind) (h : extractSections hs bytes t = .error (.DuplicateSection k)) :
    False := by
  induction hs generalizing bytes t with
  | nil => simp [extractSections] at h
  | cons hd tl ih =>
    rw [extractSections] at h
    split at h
    · simp_all
    split at h
    · simp_all
    split at h
    · next e heq =>
      simp only [Except.error.injEq] at h
      subst h
      exact ih _ _ heq
    · simp_all

/-- The whole parser never reports `DuplicateSection` for `Code` or
`Container` headers. -/
theorem parse_no_dup_code_container (bytes : List Nat) (k : SectionKind)
    (hk : k = SectionKind.Code ∨ k = SectionKind.Container)
    (h : parse_eof_container bytes = .error (.DuplicateSection k)) : False := by
  unfold parse_eof_container at h
  split at h
  · next e heq =>
    simp only [Except.error.injEq] at h
    subst h
    exact readMagic_no_dup _ _ heq
  split at h
  · next e heq =>
    simp only [Except.error.injEq] at h
    subst h
    exact readVersion_no_dup _ _ heq
  split at h
  · next e heq =>
    simp only [Except.error.injEq] at h
    subst h
    rcases parseSectionHeaders_dup_kinds _ _ _ _ _ _ heq with h1 | h1 <;>
      rcases hk with h2 | h2 <;> simp_all
  split at h
  · simp_all
  split at h
  · simp_all
  split at h
  · next e heq =>
    simp only [Except.error.injEq] at h
    subst h
    exact extractSections_no_dup _ _ _ _ heq
  split at h
  · simp_all
  · simp_all

/-- C8: while parsing section headers, reading a `Type` record when a
`Type` section was already counted — or a `Data` record when a `Data`
section was already counted — fails immediately with `DuplicateSection`
of that kind (once the record's size bytes are present); and the parser
never rejects an input with `DuplicateSection Code` or
`DuplicateSection Container`, so repeated `Code`/`Container` headers are
not rejected for their multiplicity. -/
theorem c8_duplicate_section_detection :
    (∀ hi lo rest acc tc cc dc, 1 ≤ tc →
      parseSectionHeaders (0x01 :: hi :: lo :: rest) acc tc cc dc =
        .error (.DuplicateSection SectionKind.Type)) ∧
    (∀ hi lo rest acc tc cc dc, 1 ≤ dc →
      parseSectionHeaders (0x04 :: hi :: lo :: rest) acc tc cc dc =
        .error (.DuplicateSection SectionKind.Data)) ∧
    (∀ bytes, parse_eof_container bytes ≠ .error (.DuplicateSection SectionKind.Code)) ∧
    (∀ bytes, parse_eof_container bytes ≠ .error (.DuplicateSection SectionKind.Container)) := by
  refine ⟨?_, ?_, ?_, ?_⟩
  · intro hi lo rest acc tc cc dc htc
    have h1 : tc + 1 > 1 := by omega
    simp [parseSectionHeaders, sectionKindFromByte, h1]
  · intro hi lo rest acc tc cc dc hdc
    have h1 : dc + 1 > 1 := by omega
    simp [parseSectionHeaders, sectionKindFromByte, h1]
  · intro bytes h
    exact parse_no_dup_code_container bytes _ (Or.inl rfl) h
  · intro bytes h
    exact parse_no_dup_code_container bytes _ (Or.inr rfl) h

/-- Witness for C8: a second `Type` record (running count already 1) and a
second `Data` record (running count already 1) are rejected on the spot. -/
theorem c8_duplicate_section_detection_witness :
    parseSectionHeaders [0x01, 0x00, 0x00] [] 1 0 0 =
      .error (.DuplicateSection SectionKind.Type) ∧
    parseSectionHeaders [0x04, 0x00, 0x00] [] 0 0 1 =
      .error (.DuplicateSection SectionKind.Data) :=
  ⟨c8_duplicate_section_detection.1 0 0 [] [] 1 0 0 (by decide),
   c8_duplicate_section_detection.2.1 0 0 [] [] 0 0 1 (by decide)⟩

/-! ## C3 — round-trip, amended -/

/-- Header-loop step: the `0x00` terminator ends the loop. -/
theorem parseSectionHeaders_term (rest : List Nat) (acc : List SectionHeader) (tc cc dc : Nat) :
    parseSectionHeaders (0x00 :: rest) acc tc cc dc = .ok (acc, tc, rest) := by
  simp [parseSectionHeaders]

/-- Header-loop step: a first `Type` record. -/
theorem parseSectionHeaders_type (hi lo : Nat) (r : List Nat) (acc : List SectionHeader)
    (tc cc dc : Nat) (h : ¬ tc + 1 > 1) :
    parseSectionHeaders (0x01 :: hi :: lo :: r) acc tc cc dc =
      parseSectionHeaders r (acc ++ [⟨SectionKind.Type, hi * 256 + lo⟩]) (tc + 1) cc dc := by
  simp [parseSectionHeaders, sectionKindFromByte, h]

/-- Header-loop step: a `Code` record. -/
theorem parseSectionHeaders_code (hi lo : Nat) (r : List Nat) (acc : List SectionHeader)
    (tc cc dc : Nat) :
    parseSectionHeaders (0x02 :: hi :: lo :: r) acc tc cc dc =
      parseSectionHeaders r (acc ++ [⟨SectionKind.Code, hi * 256 + lo⟩]) tc (cc + 1) dc := by
  simp [parseSectionHeaders, sectionKindFromByte]

/-- Header-loop step: a `Container` record. -/
theorem parseSectionHeaders_container (hi lo : Nat) (r : List Nat) (acc : List SectionHeader)
    (tc cc dc : Nat) :
    parseSectionHeaders (0x03 :: hi :: lo :: r) acc tc cc dc =
      parseSectionHeaders r (acc ++ [⟨SectionKind.Container, hi * 256 + lo⟩]) tc cc dc := by
  simp [parseSectionHeaders, sectionKindFromByte]

/-- Header-loop step: a first `Data` record. -/
theorem parseSectionHeaders_data (hi lo : Nat) (r : List Nat) (acc : List SectionHeader)
    (tc cc dc : Nat) (h : ¬ dc + 1 > 1) :
    parseSectionHeaders (0x04 :: hi :: lo :: r) acc tc cc dc =
      parseSectionHeaders r (acc ++ [⟨SectionKind.Data, hi * 256 + lo⟩]) tc cc (dc + 1) := by
  simp [parseSectionHeaders, sectionKindFromByte, h]

/-- The header loop parses serialized header records back exactly, as long
as the serialized list declares at most one `Type` and one `Data` section
beyond the running counts and every size fits in sixteen bits. -/
theorem parseSectionHeaders_serializeHeaders (hs : List SectionHeader) (rest : List Nat)
    (acc : List SectionHeader) (tc cc dc : Nat)
    (htype : tc + (hs.filter (fun h => h.kind == SectionKind.Type)).length ≤ 1)
    (hdata : dc + (hs.filter (fun h => h.kind == SectionKind.Data)).length ≤ 1)
    (hsize : ∀ h ∈ hs, h.size < 65536) :
    parseSectionHeaders (serializeHeaders hs ++ 0x00 :: rest) acc tc cc dc =
      .ok (acc ++ hs, tc + (hs.filter (fun h => h.kind == SectionKind.Type)).length, rest) := by
  revert htype hdata hsize
  induction hs generalizing acc tc cc dc with
  | nil =>
    intro _ _ _
    simp [serializeHeaders, parseSectionHeaders_term]
  | cons hd tl ih =>
    intro htype hdata hsize
    obtain ⟨k, sz⟩ := hd
    have hsz : sz < 65536 := hsize ⟨k, sz⟩ (by simp)
    have hsize' : ∀ h ∈ tl, h.size < 65536 := fun h hm => hsize h (List.mem_cons_of_mem _ hm)
    have hdm : sz / 256 * 256 + sz % 256 = sz := by omega
    rcases k with _ | _ | _ | _
    · rw [List.filter_cons_of_pos (by simp)] at htype ⊢
      rw [List.filter_cons_of_neg (by simp)] at hdata
      have hnd : ¬ tc + 1 > 1 := by simp at htype; omega
      rw [serializeHeaders]
      simp only [kindByte, List.cons_append]
      rw [parseSectionHeaders_type _ _ _ _ _ _ _ hnd, hdm,
        ih _ _ _ _ (by simp at htype ⊢; omega) (by omega) hsize']
      simp
      try omega
    · rw [List.filter_cons_of_neg (by simp)] at htype ⊢
      rw [List.filter_cons_of_neg (by simp)] at hdata
      rw [serializeHeaders]
      simp only [kindByte, List.cons_append]
      rw [parseSectionHeaders_code, hdm, ih _ _ _ _ htype hdata hsize']
      simp
    · rw [List.filter_cons_of_neg (by simp)] at htype ⊢
      rw [List.filter_cons_of_neg (by simp)] at hdata
      rw [serializeHeaders]
      simp only [kindByte, List.cons_append]
      rw [parseSectionHeaders_container, hdm, ih _ _ _ _ htype hdata hsize']
      simp
    · rw [List.filter_cons_of_neg (by simp)] at htype ⊢
      rw [List.filter_cons_of_pos (by simp)] at hdata
      have hnd : ¬ dc + 1 > 1 := by simp at hdata; omega
      rw [serializeHeaders]
      simp only [kindByte, List.cons_append]
      rw [parseSectionHeaders_data _ _ _ _ _ _ _ hnd, hdm,
        ih _ _ _ _ htype (by simp at hdata ⊢; omega) hsize']
      simp

/-- Content extraction recovers exactly the serialized sections when each
section's length matches its header's declared size and the running total
of declared sizes stays within `usize`. -/
theorem extractSections_serializeSections (secs : List (List Nat)) (hs : List SectionHeader)
    (rest : List Nat) (t : Nat)
    (hf : List.Forall₂ (fun s h => s.length = h.size) secs hs)
    (hsum : t + (hs.map (fun h => h.size)).sum ≤ USIZE_MAX) :
    extractSections hs (serializeSections secs ++ rest) t = .ok (secs, rest) := by
  induction hf generalizing t with
  | nil => simp [serializeSections, extractSections]
  | @cons s h secs2 hs2 hsh htail ih =>
    rw [serializeSections, extractSections]
    simp only [List.map_cons, List.sum_cons] at hsum
    have hca : checkedAdd t h.size = some (t + h.size) := by
      simp only [checkedAdd, if_pos (by omega : t + h.size ≤ USIZE_MAX)]
    rw [hca]
    simp only [List.append_assoc]
    have hlen : ¬ ((s ++ (serializeSections secs2 ++ rest)).length < h.size) := by
      simp [List.length_append]
      omega
    rw [if_neg hlen, ← hsh, List.take_left, List.drop_left,
      ih (t + s.length) (by omega)]

/-- C3 (amended): round-trip holds for every container the parser can
actually produce — version byte `0x01`, at least one declared section,
exactly one `Type` header, at most one `Data` header, sizes within
sixteen bits, total declared size within `usize`, and the §3 invariant
that each section's length equals its header's declared size (which also
forces `sections.length = section_headers.length`).  For such `c`,
`parse (serialize c) = Ok c`.  The unamended claim fails on containers the
parser never emits, e.g. one with zero sections (see the counterexample). -/
theorem c3_serialize_parse_roundtrip (c : EOFContainer)
    (hver : c.header.version = EOF_VERSION)
    (hne : c.header.section_headers ≠ [])
    (htype : (c.header.section_headers.filter (fun h => h.kind == SectionKind.Type)).length = 1)
    (hdata : (c.header.section_headers.filter (fun h => h.kind == SectionKind.Data)).length ≤ 1)
    (hsize : ∀ h ∈ c.header.section_headers, h.size < 65536)
    (hsum : (c.header.section_headers.map (fun h => h.size)).sum ≤ USIZE_MAX)
    (hsecs : List.Forall₂ (fun s h => s.length = h.size) c.sections c.header.section_headers) :
    parse_eof_container (serialize c) = .ok c := by
  obtain ⟨⟨version, headers⟩, sections⟩ := c
  simp only at hver hne htype hdata hsize hsum hsecs
  subst hver
  have hassoc : serializeHeaders headers ++ [0x00] ++ serializeSections sections =
      serializeHeaders headers ++ 0x00 :: (serializeSections sections ++ []) := by
    simp
  have hm : readMagic (0xEF :: 0x00 :: EOF_VERSION ::
      (serializeHeaders headers ++ 0x00 :: (serializeSections sections ++ []))) =
      .ok (EOF_VERSION :: (serializeHeaders headers ++ 0x00 :: (serializeSections sections ++ []))) := by
    simp [readMagic, EOF_MAGIC]
  have hv : readVersion (EOF_VERSION ::
      (serializeHeaders headers ++ 0x00 :: (serializeSections sections ++ []))) =
      .ok (EOF_VERSION, serializeHeaders headers ++ 0x00 :: (serializeSections sections ++ [])) := by
    simp [readVersion]
  have hsh := parseSectionHeaders_serializeHeaders headers (serializeSections sections ++ [])
      [] 0 0 0 (by omega) (by omega) hsize
  have hex := extractSections_serializeSections sections headers [] 0 hsecs (by omega)
  unfold serialize
  simp only [hassoc]
  simp only [parse_eof_container, hm, hv, hsh, hex, List.nil_append, Nat.zero_add, htype]
  simp [hne]

/-- Witness for C3 at the minimal valid container. -/
theorem c3_serialize_parse_roundtrip_witness :
    parse_eof_container (serialize ⟨⟨1, [⟨SectionKind.Type, 4⟩, ⟨SectionKind.Code, 5⟩]⟩,
        [[0, 0, 0, 0], [0x60, 0x01, 0x60, 0x02, 0x01]]⟩) =
      .ok ⟨⟨1, [⟨SectionKind.Type, 4⟩, ⟨SectionKind.Code, 5⟩]⟩,
        [[0, 0, 0, 0], [0x60, 0x01, 0x60, 0x02, 0x01]]⟩ :=
  c3_serialize_parse_roundtrip
    ⟨⟨1, [⟨SectionKind.Type, 4⟩, ⟨SectionKind.Code, 5⟩]⟩,
      [[0, 0, 0, 0], [0x60, 0x01, 0x60, 0x02, 0x01]]⟩
    (by rfl) (by decide) (by decide) (by decide) (by decide) (by decide)
    (by simp [List.forall₂_cons])

/-! ## C4 — truncation monotonicity -/

/-- A successfully decoded kind byte is the kind's wire discriminant. -/
theorem sectionKindFromByte_inv (b : Nat) (k : SectionKind)
    (h : sectionKindFromByte b = .ok k) : b = kindByte k := by
  unfold sectionKindFromByte at h
  split_ifs at h <;> cases h <;> simp_all [kindByte]

/-- The header loop consumes an input segment determined by its result:
re-running it on that segment followed by any other suffix succeeds
identically, and running it on any strict prefix of the segment fails with
`UnexpectedEndOfInput`. -/
theorem parseSectionHeaders_split (bytes : List Nat) (acc : List SectionHeader) (tc cc dc : Nat)
    (hdrs : List SectionHeader) (tcnt : Nat) (rest : List Nat)
    (h : parseSectionHeaders bytes acc tc cc dc = .ok (hdrs, tcnt, rest)) :
    ∃ consumed, bytes = consumed ++ rest ∧
      (∀ r, parseSectionHeaders (consumed ++ r) acc tc cc dc = .ok (hdrs, tcnt, r)) ∧
      (∀ m, m < consumed.length →
        parseSectionHeaders (consumed.take m) acc tc cc dc = .error .UnexpectedEndOfInput) := by
  revert h
  induction bytes, acc, tc, cc, dc using parseSectionHeaders.induct with
  | case1 acc tc cc dc =>
    intro h
    rw [parseSectionHeaders] at h
    cases h
  | case2 rest' acc tc cc dc =>
    intro h
    rw [parseSectionHeaders_term] at h
    simp only [Except.ok.injEq, Prod.mk.injEq] at h
    obtain ⟨rfl, rfl, rfl⟩ := h
    refine ⟨[0x00], rfl, fun r => parseSectionHeaders_term r _ _ _ _, ?_⟩
    intro m hm
    obtain rfl : m = 0 := by simpa using hm
    simp [parseSectionHeaders]
  | case3 kindB rest' acc tc cc dc hkb e hk =>
    intro h
    rw [parseSectionHeaders] at h
    simp [if_neg hkb, hk] at h
  | case4 kindB acc tc cc dc hkb hi lo rest2 hguard hk =>
    intro h
    obtain rfl := sectionKindFromByte_inv _ _ hk
    simp only [kindByte] at *
    rw [parseSectionHeaders] at h
    simp [sectionKindFromByte, hguard] at h
  | case5 kindB acc tc cc dc hkb hi lo rest2 hguard hk ih =>
    intro h
    obtain rfl := sectionKindFromByte_inv _ _ hk
    simp only [kindByte] at *
    rw [parseSectionHeaders_type _ _ _ _ _ _ _ hguard] at h
    obtain ⟨c2, hc2, hext2, htr2⟩ := ih h
    refine ⟨0x01 :: hi :: lo :: c2, by simp [hc2], ?_, ?_⟩
    · intro r
      simp only [List.cons_append]
      rw [parseSectionHeaders_type _ _ _ _ _ _ _ hguard]
      exact hext2 r
    · intro m hm
      match m, hm with
      | 0, _ => simp [parseSectionHeaders]
      | 1, _ => simp [parseSectionHeaders, sectionKindFromByte]
      | 2, _ => simp [parseSectionHeaders, sectionKindFromByte]
      | (m' + 3), hm =>
        simp only [List.take_succ_cons]
        rw [parseSectionHeaders_type _ _ _ _ _ _ _ hguard]
        exact htr2 m' (by simp at hm; omega)
  | case6 kindB acc tc cc dc hkb hi lo rest2 hk ih =>
    intro h
    obtain rfl := sectionKindFromByte_inv _ _ hk
    simp only [kindByte] at *
    rw [parseSectionHeaders_code] at h
    obtain ⟨c2, hc2, hext2, htr2⟩ := ih h
    refine ⟨0x02 :: hi :: lo :: c2, by simp [hc2], ?_, ?_⟩
    · intro r
      simp only [List.cons_append]
      rw [parseSectionHeaders_code]
      exact hext2 r
    · intro m hm
      match m, hm with
      | 0, _ => simp [parseSectionHeaders]
      | 1, _ => simp [parseSectionHeaders, sectionKindFromByte]
      | 2, _ => simp [parseSectionHeaders, sectionKindFromByte]
      | (m' + 3), hm =>
        simp only [List.take_succ_cons]
        rw [parseSectionHeaders_code]
        exact htr2 m' (by simp at hm; omega)
  | case7 kindB acc tc cc dc hkb hi lo rest2 hguard hk =>
    intro h
    obtain rfl := sectionKindFromByte_inv _ _ hk
    simp only [kindByte] at *
    rw [parseSectionHeaders] at h
    simp [sectionKindFromByte, hguard] at h
  | case8 kindB acc tc cc dc hkb hi lo rest2 hguard hk ih =>
    intro h
    obtain rfl := sectionKindFromByte_inv _ _ hk
    simp only [kindByte] at *
    rw [parseSectionHeaders_data _ _ _ _ _ _ _ hguard] at h
    obtain ⟨c2, hc2, hext2, htr2⟩ := ih h
    refine ⟨0x04 :: hi :: lo :: c2, by simp [hc2], ?_, ?_⟩
    · intro r
      simp only [List.cons_append]
      rw [parseSectionHeaders_data _ _ _ _ _ _ _ hguard]
      exact hext2 r
    · intro m hm
      match m, hm with
      | 0, _ => simp [parseSectionHeaders]
      | 1, _ => simp [parseSectionHeaders, sectionKindFromByte]
      | 2, _ => simp [parseSectionHeaders, sectionKindFromByte]
      | (m' + 3), hm =>
        simp only [List.take_succ_cons]
        rw [parseSectionHeaders_data _ _ _ _ _ _ _ hguard]
        exact htr2 m' (by simp at hm; omega)
  | case9 kindB acc tc cc dc hkb hi lo rest2 hk ih =>
    intro h
    obtain rfl := sectionKindFromByte_inv _ _ hk
    simp only [kindByte] at *
    rw [parseSectionHeaders_container] at h
    obtain ⟨c2, hc2, hext2, htr2⟩ := ih h
    refine ⟨0x03 :: hi :: lo :: c2, by simp [hc2], ?_, ?_⟩
    · intro r
      simp only [List.cons_append]
      rw [parseSectionHeaders_container]
      exact hext2 r
    · intro m hm
      match m, hm with
      | 0, _ => simp [parseSectionHeaders]
      | 1, _ => simp [parseSectionHeaders, sectionKindFromByte]
      | 2, _ => simp [parseSectionHeaders, sectionKindFromByte]
      | (m' + 3), hm =>
        simp only [List.take_succ_cons]
        rw [parseSectionHeaders_container]
        exact htr2 m' (by simp at hm; omega)
  | case10 kindB rest' acc tc cc dc hkb kind hk hnt hnc hnd hncn =>
    intro h
    rcases rest' with _ | ⟨x, _ | ⟨y, r⟩⟩
    · rw [parseSectionHeaders] at h
      simp only [if_neg hkb, hk] at h
      cases kind <;> simp at h
    · rw [parseSectionHeaders] at h
      simp only [if_neg hkb, hk] at h
      cases kind <;> simp at h
    · cases kind
      · exact (hnt x y r rfl rfl).elim
      · exact (hnc x y r rfl rfl).elim
      · exact (hncn x y r rfl rfl).elim
      · exact (hnd x y r rfl rfl).elim

/-- Content extraction consumes an input segment determined by its result:
re-running it on that segment plus any suffix succeeds identically, and
any strict prefix of the segment fails with `UnexpectedEndOfInput`. -/
theorem extractSections_split (hs : List SectionHeader) (bytes : List Nat) (t : Nat)
    (secs : List (List Nat)) (rest : List Nat)
    (h : extractSections hs bytes t = .ok (secs, rest)) :
    ∃ consumed, bytes = consumed ++ rest ∧
      (∀ r, extractSections hs (consumed ++ r) t = .ok (secs, r)) ∧
      (∀ m, m < consumed.length →
        extractSections hs (consumed.take m) t = .error .UnexpectedEndOfInput) := by
  induction hs generalizing bytes t secs with
  | nil =>
    simp only [extractSections, Except.ok.injEq, Prod.mk.injEq] at h
    obtain ⟨rfl, rfl⟩ := h
    exact ⟨[], by simp, fun r => by simp [extractSections], fun m hm => by simp at hm⟩
  | cons hd tl ih =>
    rw [extractSections] at h
    split at h
    · cases h
    next t2 hca =>
    split at h
    · cases h
    next hlt =>
    split at h
    · cases h
    next secs2 rest2 hrec =>
    simp only [Except.ok.injEq, Prod.mk.injEq] at h
    obtain ⟨rfl, rfl⟩ := h
    obtain ⟨c2, hc2, hext2, htr2⟩ := ih _ _ _ hrec
    have htk : (bytes.take hd.size).length = hd.size := by
      simp only [List.length_take]
      omega
    generalize hA : bytes.take hd.size = A at htk
    refine ⟨A ++ c2, ?_, ?_, ?_⟩
    · conv_lhs => rw [← List.take_append_drop hd.size bytes]
      rw [hA, hc2, List.append_assoc]
    · intro r
      rw [List.append_assoc, extractSections, hca]
      dsimp only
      rw [if_neg (by simp only [List.length_append, htk]; omega)]
      rw [← htk, List.take_left, List.drop_left, hext2 r]
    · intro m hm
      simp only [List.length_append, htk] at hm
      by_cases hms : m < hd.size
      · rw [extractSections, hca]
        dsimp only
        rw [if_pos (by simp only [List.length_take, List.length_append, htk]; omega)]
      · have hsplit : (A ++ c2).take m = A ++ c2.take (m - hd.size) := by
          rw [List.take_append_eq_append_take,
            List.take_of_length_le (by omega : A.length ≤ m), htk]
        rw [hsplit, extractSections, hca]
        dsimp only
        rw [if_neg (by simp only [List.length_append, htk]; omega)]
        rw [← htk, List.take_left, List.drop_left, htk]
        rw [htr2 (m - hd.size) (by omega)]

/-- A successful magic check consumed exactly two bytes forming the magic. -/
theorem readMagic_inv (bytes r : List Nat) (h : readMagic bytes = .ok r) :
    ∃ b0 b1, bytes = b0 :: b1 :: r ∧ b0 * 256 + b1 = EOF_MAGIC := by
  unfold readMagic at h
  split at h
  · next b0 b1 rest =>
    split_ifs at h with hmg
    simp only [Except.ok.injEq] at h
    subst h
    exact ⟨b0, b1, rfl, by omega⟩
  · cases h

/-- A successful version check consumed exactly the version byte. -/
theorem readVersion_inv (bytes : List Nat) (v : Nat) (r : List Nat)
    (h : readVersion bytes = .ok (v, r)) :
    bytes = v :: r ∧ v = EOF_VERSION := by
  unfold readVersion at h
  split at h
  · next v' rest =>
    split_ifs at h with hv
    simp only [Except.ok.injEq, Prod.mk.injEq] at h
    obtain ⟨rfl, rfl⟩ := h
    exact ⟨rfl, by omega⟩
  · cases h

/-- C4: truncation monotonicity — if the parser accepts a byte sequence,
it rejects every proper prefix of it, and always with
`UnexpectedEndOfInput`. -/
theorem c4_truncation (bytes : List Nat) (c : EOFContainer) (m : Nat)
    (hok : parse_eof_container bytes = .ok c) (hm : m < bytes.length) :
    parse_eof_container (bytes.take m) = .error .UnexpectedEndOfInput := by
  unfold parse_eof_container at hok
  split at hok
  · cases hok
  next r1 hmag =>
  split at hok
  · cases hok
  next version r2 hver =>
  split at hok
  · cases hok
  next headers typeCount r3 hsh =>
  split at hok
  · cases hok
  next hne =>
  split at hok
  · cases hok
  next htc =>
  split at hok
  · cases hok
  next sections r4 hex =>
  split at hok
  · cases hok
  next hr4 =>
  have hr4e : r4 = [] := by simpa using hr4
  subst hr4e
  obtain ⟨b0, b1, rfl, hmagic⟩ := readMagic_inv _ _ hmag
  obtain ⟨h1eq, hv1⟩ := readVersion_inv _ _ _ hver
  subst h1eq
  subst hv1
  obtain ⟨cH, hcH, hextH, htrH⟩ := parseSectionHeaders_split _ _ _ _ _ _ _ _ hsh
  obtain ⟨cE, hcE, hextE, htrE⟩ := extractSections_split _ _ _ _ _ hex
  rw [List.append_nil] at hcE
  subst hcE
  subst hcH
  have hmlen : m < 3 + (cH.length + r3.length) := by
    simp only [List.length_cons, List.length_append] at hm
    omega
  match m, hmlen with
  | 0, _ =>
    simp [parse_eof_container, readMagic]
  | 1, _ =>
    simp [parse_eof_container, readMagic]
  | 2, _ =>
    simp only [List.take_succ_cons, List.take_zero]
    simp [parse_eof_container, readMagic, readVersion, hmagic]
  | (m' + 3), hmlen =>
    simp only [List.take_succ_cons]
    have hm2 : m' < cH.length + r3.length := by omega
    by_cases hcase : m' < cH.length
    · have htk : (cH ++ r3).take m' = cH.take m' := by
        rw [List.take_append_eq_append_take,
          Nat.sub_eq_zero_of_le (Nat.le_of_lt hcase)]
        simp
      rw [htk]
      have e1 : readMagic (b0 :: b1 :: EOF_VERSION :: cH.take m') =
          .ok (EOF_VERSION :: cH.take m') := by
        simp [readMagic, hmagic]
      have e2 : readVersion (EOF_VERSION :: cH.take m') =
          .ok (EOF_VERSION, cH.take m') := by
        simp [readVersion]
      unfold parse_eof_container
      rw [e1]
      dsimp only
      rw [e2]
      dsimp only
      rw [htrH m' hcase]
    · have htk : (cH ++ r3).take m' = cH ++ r3.take (m' - cH.length) := by
        rw [List.take_append_eq_append_take,
          List.take_of_length_le (by omega : cH.length ≤ m')]
      rw [htk]
      have e1 : readMagic (b0 :: b1 :: EOF_VERSION :: (cH ++ r3.take (m' - cH.length))) =
          .ok (EOF_VERSION :: (cH ++ r3.take (m' - cH.length))) := by
        simp [readMagic, hmagic]
      have e2 : readVersion (EOF_VERSION :: (cH ++ r3.take (m' - cH.length))) =
          .ok (EOF_VERSION, cH ++ r3.take (m' - cH.length)) := by
        simp [readVersion]
      unfold parse_eof_container
      rw [e1]
      dsimp only
      rw [e2]
      dsimp only
      rw [hextH (r3.take (m' - cH.length))]
      dsimp only
      rw [if_neg hne, if_neg htc, htrE (m' - cH.length) (by omega)]

/-- Witness for C4: the 7-byte proper prefix of the minimal valid
container's 19-byte encoding is rejected with `UnexpectedEndOfInput`. -/
theorem c4_truncation_witness :
    parse_eof_container ([0xEF, 0x00, 0x01, 0x01, 0x00, 0x04, 0x02, 0x00, 0x05, 0x00,
        0, 0, 0, 0, 0x60, 0x01, 0x60, 0x02, 0x01].take 7) =
      .error .UnexpectedEndOfInput :=
  c4_truncation
    [0xEF, 0x00, 0x01, 0x01, 0x00, 0x04, 0x02, 0x00, 0x05, 0x00,
      0, 0, 0, 0, 0x60, 0x01, 0x60, 0x02, 0x01]
    (⟨⟨1, [⟨SectionKind.Type, 4⟩, ⟨SectionKind.Code, 5⟩]⟩,
      [[0, 0, 0, 0], [0x60, 0x01, 0x60, 0x02, 0x01]]⟩ : EOFContainer)
    7 (by rfl) (by decide)
